import Mathlib

set_option maxRecDepth 100000

/-!
Verification of the NH3 historical-data notebook (`NH3HistoricalData.ipynb`).

The notebook's core logic is embedded shallowly:
* timestamps and NH3 readings become rationals (timestamps in seconds);
* the `scipy.signal.find_peaks` calls of the "Detect peaks" cell are modelled
  by `find_peaks` below (plateau-aware local maxima, height filter,
  topographic prominence filter, no window length);
* `pd.merge_ordered` becomes a stable insertion sort on the common columns
  (Time, NH3, type), matching pandas' ordered merge on the shared columns;
* the alternation while-loop of the "Rate Analysis" cell is embedded as a
  step function over the dataframe state, a list of (label, row) pairs with
  pandas label semantics: `extrema['type'][i]` is a label lookup that fails
  when the label is absent, and `extrema.drop(i)` removes the row with label
  `i` without re-indexing;
* `.diff()`, `extrema.drop(0)` and the `NH3/Hour` column become `addDiffs`,
  `dropLabel0` (failing, like pandas, when label 0 is absent) and `addRate`.
-/

namespace NH3

/-- Type tag attached to a detected extremum ('max' or 'min' in the source). -/
inductive Tag where
  | max
  | min
  deriving DecidableEq, Inhabited, Repr

/-- Order used by `pd.merge_ordered` ties on the 'type' column: the string
'max' sorts before 'min'. -/
def tagIdx : Tag → Nat
  | Tag.max => 0
  | Tag.min => 1

/-- One row of the uploaded dataframe: a timestamp (in seconds) and an NH3
reading. -/
structure Sample where
  time : ℚ
  nh3 : ℚ
  deriving DecidableEq, Inhabited, Repr

/-- One row of the `maxima`/`minima`/`extrema` frames: a sample plus its tag. -/
structure Extremum where
  time : ℚ
  nh3 : ℚ
  tag : Tag
  deriving DecidableEq, Inhabited, Repr

/-- Default extremum used with `List.getD`. -/
def dE : Extremum := default

/-- Default (label, row) pair used with `List.getD`. -/
def dP : Nat × Extremum := default

/-! ## Peak detection (model of `scipy.signal.find_peaks`)

Modelled from the spec: the notebook calls `scipy.signal.find_peaks`, whose
source is not part of this repository.  Following the spec's contract and
scipy's documented behavior, a local maximum is a sample strictly above its
neighbors, where a flat plateau that rises on the left and falls on the right
counts once, reported at the plateau midpoint; the `height` keyword keeps
peaks whose value is at least the bound, and the `prominence` keyword keeps
peaks whose topographic prominence (height above the higher of the two
surrounding bases, searched up to the next strictly higher sample or the
signal border) is at least the bound. -/

/-- Leftmost index of the constant plateau that contains index `i`. -/
def plateauL (x : List ℚ) : Nat → Nat
  | 0 => 0
  | j + 1 => if x.getD j 0 = x.getD (j + 1) 0 then plateauL x j else j + 1

/-- Length of the longest prefix of `l` whose entries all equal `v`. -/
def runLen (v : ℚ) : List ℚ → Nat
  | [] => 0
  | a :: l => if a = v then runLen v l + 1 else 0

/-- Rightmost index of the constant plateau that contains index `i`. -/
def plateauR (x : List ℚ) (i : Nat) : Nat :=
  i + runLen (x.getD i 0) (x.drop (i + 1))

/-- Interior index `i` is reported as a local peak: it is the midpoint of a
maximal constant plateau that strictly rises on its left edge and strictly
falls after its right edge. -/
def isLocalPeak (x : List ℚ) (i : Nat) : Bool :=
  let l := plateauL x i
  let r := plateauR x i
  decide (0 < l) && decide (r + 1 < x.length) &&
    decide (x.getD (l - 1) 0 < x.getD i 0) &&
    decide (x.getD (r + 1) 0 < x.getD i 0) &&
    (i == (l + r) / 2)

/-- Scan outward from a peak of value `pv`: take values until the first one
strictly above `pv`, and return their minimum (`pv` when the scan is empty). -/
def promScan (pv : ℚ) : List ℚ → ℚ
  | [] => pv
  | a :: l => if pv < a then pv else min a (promScan pv l)

/-- Topographic prominence of index `i` in `x`: the peak value minus the
higher of the two base minima, searched to the left and to the right until a
strictly higher sample or the border. -/
def prominence (x : List ℚ) (i : Nat) : ℚ :=
  let pv := x.getD i 0
  pv - max (promScan pv ((x.take (i + 1)).reverse)) (promScan pv (x.drop i))

/-- Model of `scipy.signal.find_peaks(x, height, prominence)`: local peaks,
filtered by minimum height, then by minimum prominence. -/
def find_peaks (x : List ℚ) (h p : ℚ) : List Nat :=
  (((List.range x.length).filter (fun i => isLocalPeak x i)).filter
      (fun i => decide (h ≤ x.getD i 0))).filter
    (fun i => decide (p ≤ prominence x i))

/-- Index set of detected maxima: `find_peaks(df['NH3'], height=max_cutoff,
prominence=0.3)` in the "Detect peaks" cell. -/
def maximaIdx (df : List Sample) (hi : ℚ) : List Nat :=
  find_peaks (df.map (fun s => s.nh3)) hi (3 / 10)

/-- Index set of detected minima: `find_peaks(-df['NH3'], height=-min_cutoff,
prominence=0.3)` in the "Detect peaks" cell. -/
def minimaIdx (df : List Sample) (lo : ℚ) : List Nat :=
  find_peaks (df.map (fun s => -s.nh3)) (-lo) (3 / 10)

/-- The `maxima` frame: `df.iloc[maxima]` with `type = 'max'`. -/
def detectMaxima (df : List Sample) (hi : ℚ) : List Extremum :=
  (maximaIdx df hi).map (fun i => ⟨(df.getD i default).time, (df.getD i default).nh3, Tag.max⟩)

/-- The `minima` frame: `df.iloc[minima]` with `type = 'min'`. -/
def detectMinima (df : List Sample) (lo : ℚ) : List Extremum :=
  (minimaIdx df lo).map (fun i => ⟨(df.getD i default).time, (df.getD i default).nh3, Tag.min⟩)

/-! ## Ordered merge (model of `pd.merge_ordered(maxima, minima)`) -/

/-- Lexicographic comparison on the columns shared by `maxima` and `minima`
(Time, then NH3, then type), the keys of `pd.merge_ordered`. -/
def extLEb (a b : Extremum) : Bool :=
  decide (a.time < b.time) ||
    (decide (a.time = b.time) &&
      (decide (a.nh3 < b.nh3) ||
        (decide (a.nh3 = b.nh3) && decide (tagIdx a.tag ≤ tagIdx b.tag))))

/-- Insert into a sorted list of extrema, keeping earlier entries first on
ties. -/
def orderedIns (a : Extremum) : List Extremum → List Extremum
  | [] => [a]
  | b :: l => if extLEb a b then a :: b :: l else b :: orderedIns a l

/-- Stable insertion sort by `extLEb`. -/
def sortExt : List Extremum → List Extremum
  | [] => []
  | a :: l => orderedIns a (sortExt l)

/-- Model of `pd.merge_ordered(maxima, minima)`: rows of both frames,
ordered by the shared columns, with a fresh range index. -/
def mergeOrdered (ma mi : List Extremum) : List Extremum :=
  sortExt (ma ++ mi)

/-! ## The alternation while-loop (dataframe with pandas label semantics) -/

/-- Attach labels `k, k+1, ...` to the rows: the RangeIndex of the freshly
merged `extrema` frame. -/
def labelFrom (k : Nat) : List Extremum → List (Nat × Extremum)
  | [] => []
  | a :: l => (k, a) :: labelFrom (k + 1) l

/-- Consecutive naturals `k, k+1, ..., k+n-1`, the label set of a frame. -/
def natsFrom (k : Nat) : Nat → List Nat
  | 0 => []
  | n + 1 => k :: natsFrom (k + 1) n

/-- Label lookup `extrema['type'][i]`: the row whose index label is `j`,
or `none` (a pandas `KeyError`) when the label is absent. -/
def lookupLabel (s : List (Nat × Extremum)) (j : Nat) : Option Extremum :=
  (s.find? (fun p => p.1 == j)).map Prod.snd

/-- Row removal `extrema.drop(i, axis=0)` on a frame already known to hold
label `i`: all rows except the one labelled `i`, labels unchanged. -/
def dropLabel (s : List (Nat × Extremum)) (j : Nat) : List (Nat × Extremum) :=
  s.filter (fun p => p.1 != j)

/-- One run of the alternation while-loop `while (i+1 < imax): if
extrema['type'][i] == extrema['type'][i+1]: extrema = extrema.drop(i); i += 1`.
`imax = len(extrema)` is fixed before the loop.  The fuel argument only bounds
the iteration count; `altLoopRun` supplies enough for the loop to finish.
A failing label lookup (pandas `KeyError`) aborts with `none`. -/
def altLoopGo (imax : Nat) : Nat → Nat → List (Nat × Extremum) → Option (List (Nat × Extremum))
  | 0, _, s => some s
  | fuel + 1, i, s =>
    if i + 1 < imax then
      (lookupLabel s i).bind fun a =>
        (lookupLabel s (i + 1)).bind fun b =>
          altLoopGo imax fuel (i + 1) (if a.tag = b.tag then dropLabel s i else s)
    else
      some s

/-- The alternation pass of the "Rate Analysis" cell, run on the freshly
labelled merged frame. -/
def altLoopRun (rows : List Extremum) : Option (List (Nat × Extremum)) :=
  altLoopGo rows.length rows.length 0 (labelFrom 0 rows)

/-- Type tag of the row at original position `j` of the merged frame. -/
def tagAt (rows : List Extremum) (j : Nat) : Tag :=
  (rows.getD j dE).tag

/-- Pure survival criterion for original position `j`: the last row, or a row
whose tag differs from the tag of the next original row. -/
def survB (rows : List Extremum) (j : Nat) : Bool :=
  (j + 1 == rows.length) || decide (tagAt rows j ≠ tagAt rows (j + 1))

/-- Pure rebuild of the alternation pass: keep exactly the rows whose
original position satisfies `survB`.  `altLoopRun` is proved to agree with
this definition. -/
def altFilter (rows : List Extremum) : List (Nat × Extremum) :=
  (labelFrom 0 rows).filter (fun p => survB rows p.1)

/-! ## Differences, first-row drop and rate (rest of the "Rate Analysis" cell) -/

/-- One row of the final `extrema` table, with the `Delta_NH3`, `Delta_Time`
and `NH3/Hour` columns (`none` models a missing value). -/
structure RateRow where
  label : Nat
  time : ℚ
  nh3 : ℚ
  tag : Tag
  dNH3 : Option ℚ
  dTime : Option ℚ
  rate : Option ℚ
  deriving DecidableEq, Inhabited, Repr

/-- Default rate row used with `List.getD`. -/
def dR : RateRow := default

/-- Rows after the first, each differenced against its positional
predecessor (`prev`). -/
def addDiffsAux (prev : Extremum) : List (Nat × Extremum) → List RateRow
  | [] => []
  | (l, e) :: rest =>
    ⟨l, e.time, e.nh3, e.tag, some (e.nh3 - prev.nh3), some (e.time - prev.time), none⟩ ::
      addDiffsAux e rest

/-- The `.diff()` columns: the first row gets missing deltas, every later row
is differenced against the row above it. -/
def addDiffs : List (Nat × Extremum) → List RateRow
  | [] => []
  | (l, e) :: rest => ⟨l, e.time, e.nh3, e.tag, none, none, none⟩ :: addDiffsAux e rest

/-- Model of `extrema.drop(0, axis=0)`: removes the row labelled `0`, and
fails (pandas `KeyError`) when no row carries label `0`. -/
def dropLabel0 (rs : List RateRow) : Option (List RateRow) :=
  if rs.any (fun r => r.label == 0) then some (rs.filter (fun r => r.label != 0)) else none

/-- The `NH3/Hour` column: `Delta_NH3 / (Delta_Time.total_seconds()/3600)`,
defined whenever both deltas are present. -/
def addRate (r : RateRow) : RateRow :=
  { r with
    rate :=
      match r.dNH3, r.dTime with
      | some dv, some dt => some (dv / (dt / 3600))
      | _, _ => none }

/-- Row of the rate table built from two consecutive surviving extrema, as
the spec describes an Interval: signed value delta, time delta, and rate
`Delta_Value / (Delta_Time_seconds / 3600)`. -/
def rateRowOf (prev cur : Nat × Extremum) : RateRow :=
  ⟨cur.1, cur.2.time, cur.2.nh3, cur.2.tag,
    some (cur.2.nh3 - prev.2.nh3),
    some (cur.2.time - prev.2.time),
    some ((cur.2.nh3 - prev.2.nh3) / ((cur.2.time - prev.2.time) / 3600))⟩

/-- The whole "Rate Analysis" cell, starting from the merged frame:
alternation loop, `.diff()` columns, `drop(0)`, `NH3/Hour` column; a failure
in any step (a pandas `KeyError`) propagates. -/
def ratePipeline (rows : List Extremum) : Option (List RateRow) :=
  (altLoopRun rows).bind fun s =>
    (dropLabel0 (addDiffs s)).map fun rs => rs.map addRate

/-- Detection through rate computation, from the parsed dataframe and the two
cutoff sliders. -/
def fullPipeline (df : List Sample) (hi lo : ℚ) : Option (List RateRow) :=
  ratePipeline (mergeOrdered (detectMaxima df hi) (detectMinima df lo))

/-! ## Notebook state (for determinism/idempotence of repeated runs) -/

/-- The mutable notebook state read and written by the detection and rate
cells: the parsed dataframe, the two global cutoffs, and the `maxima`,
`minima` and `extrema` frames. -/
structure NBState where
  df : List Sample
  maxCutoff : ℚ
  minCutoff : ℚ
  maxima : List Extremum
  minima : List Extremum
  extrema : Option (List RateRow)
  deriving DecidableEq, Inhabited

/-- Re-running the "Detect peaks" cell: overwrites `maxima` and `minima`
from the dataframe and the cutoffs. -/
def runDetect (st : NBState) : NBState :=
  { st with
    maxima := detectMaxima st.df st.maxCutoff
    minima := detectMinima st.df st.minCutoff }

/-- Re-running the "Rate Analysis" cell: overwrites `extrema` from the
current `maxima` and `minima` frames. -/
def runRate (st : NBState) : NBState :=
  { st with extrema := ratePipeline (mergeOrdered st.maxima st.minima) }

/-- One full run of the detection and rate cells. -/
def runPipeline (st : NBState) : NBState :=
  runRate (runDetect st)

/-! ## Structure of labelled frames -/

theorem mem_labelFrom : ∀ (l : List Extremum) (k : Nat) (p : Nat × Extremum),
    p ∈ labelFrom k l ↔ k ≤ p.1 ∧ p.1 - k < l.length ∧ p.2 = l.getD (p.1 - k) dE := by
  intro l
  induction l with
  | nil => intro k p; simp [labelFrom]
  | cons a l ih =>
    intro k p
    simp only [labelFrom, List.mem_cons, ih, List.length_cons]
    constructor
    · rintro (rfl | ⟨h1, h2, h3⟩)
      · exact ⟨Nat.le_refl k, by simp, by simp⟩
      · refine ⟨by omega, by omega, ?_⟩
        have e : p.1 - k = (p.1 - (k + 1)) + 1 := by omega
        rw [e, List.getD_cons_succ]
        exact h3
    · rintro ⟨h1, h2, h3⟩
      by_cases hk : p.1 = k
      · left
        obtain ⟨p1, p2⟩ := p
        simp only at hk h3
        subst hk
        simp only [Nat.sub_self, List.getD_cons_zero] at h3
        simp [h3]
      · right
        refine ⟨by omega, by omega, ?_⟩
        have e : p.1 - k = (p.1 - (k + 1)) + 1 := by omega
        rw [e, List.getD_cons_succ] at h3
        exact h3

theorem find_labelFrom_filter (g : Nat × Extremum → Bool) :
    ∀ (l : List Extremum) (k j : Nat), k ≤ j → j - k < l.length →
      g (j, l.getD (j - k) dE) = true →
      ((labelFrom k l).filter g).find? (fun p => p.1 == j) = some (j, l.getD (j - k) dE) := by
  intro l
  induction l with
  | nil => intro k j h1 h2; simp at h2
  | cons a l ih =>
    intro k j hkj hj hg
    simp only [labelFrom]
    by_cases hjk : j = k
    · subst hjk
      simp only [Nat.sub_self, List.getD_cons_zero] at hg ⊢
      rw [List.filter_cons_of_pos hg]
      exact List.find?_cons_of_pos _ (by simp)
    · have hkj' : k + 1 ≤ j := by omega
      have e : j - k = (j - (k + 1)) + 1 := by omega
      have hlen : (a :: l).length = l.length + 1 := by simp
      have hj' : j - (k + 1) < l.length := by omega
      rw [e, List.getD_cons_succ] at hg ⊢
      by_cases hga : g (k, a) = true
      · rw [List.filter_cons_of_pos hga, List.find?_cons_of_neg]
        · exact ih (k + 1) j hkj' hj' hg
        · simp only [beq_iff_eq]
          omega
      · rw [List.filter_cons_of_neg (by simp [hga])]
        exact ih (k + 1) j hkj' hj' hg

theorem lookupLabel_filter (rows : List Extremum) (g : Nat × Extremum → Bool) (j : Nat)
    (hj : j < rows.length) (hg : g (j, rows.getD j dE) = true) :
    lookupLabel ((labelFrom 0 rows).filter g) j = some (rows.getD j dE) := by
  unfold lookupLabel
  rw [find_labelFrom_filter g rows 0 j (Nat.zero_le j) (by simpa) (by simpa using hg)]
  rfl

theorem survB_eq_true {rows : List Extremum} {j : Nat} :
    survB rows j = true ↔ (j + 1 = rows.length ∨ tagAt rows j ≠ tagAt rows (j + 1)) := by
  simp [survB]

/-! ## The loop agrees with the pure rebuild -/

theorem altLoopGo_inv (rows : List Extremum) :
    ∀ d fuel i, rows.length = i + d + 1 → d ≤ fuel →
      altLoopGo rows.length fuel i
          ((labelFrom 0 rows).filter (fun p => decide (i ≤ p.1) || survB rows p.1)) =
        some (altFilter rows) := by
  intro d
  induction d with
  | zero =>
    intro fuel i hn hf
    have hstate : (labelFrom 0 rows).filter (fun p => decide (i ≤ p.1) || survB rows p.1) =
        altFilter rows := by
      unfold altFilter
      apply List.filter_congr
      intro p hp
      have hb := (mem_labelFrom rows 0 p).1 hp
      by_cases hpi : p.1 = i
      · have hs : survB rows p.1 = true := by
          rw [survB_eq_true]
          left
          omega
        simp [hs]
      · have hd : decide (i ≤ p.1) = false := by
          simp only [decide_eq_false_iff_not]
          omega
        simp [hd]
    rw [hstate]
    cases fuel with
    | zero => rfl
    | succ f =>
      have hlt : ¬ (i + 1 < rows.length) := by omega
      simp [altLoopGo, hlt]
  | succ d ih =>
    intro fuel i hn hf
    obtain ⟨f, rfl⟩ : ∃ f, fuel = f + 1 := ⟨fuel - 1, by omega⟩
    have hlt : i + 1 < rows.length := by omega
    have hi : i < rows.length := by omega
    have hg1 : (fun p : Nat × Extremum => decide (i ≤ p.1) || survB rows p.1)
        (i, rows.getD i dE) = true := by simp
    have hg2 : (fun p : Nat × Extremum => decide (i ≤ p.1) || survB rows p.1)
        (i + 1, rows.getD (i + 1) dE) = true := by simp
    have hl1 := lookupLabel_filter rows
      (fun p : Nat × Extremum => decide (i ≤ p.1) || survB rows p.1) i hi hg1
    have hl2 := lookupLabel_filter rows
      (fun p : Nat × Extremum => decide (i ≤ p.1) || survB rows p.1) (i + 1) hlt hg2
    simp only [altLoopGo, if_pos hlt, hl1, hl2, Option.some_bind]
    by_cases htag : (rows.getD i dE).tag = (rows.getD (i + 1) dE).tag
    · rw [if_pos htag]
      have hsurv : survB rows i = false := by
        have h1 : (i + 1 == rows.length) = false := by
          simp only [beq_eq_false_iff_ne]
          omega
        have h2 : decide (tagAt rows i ≠ tagAt rows (i + 1)) = false := by
          simp only [tagAt, decide_eq_false_iff_not, not_not]
          exact htag
        simp [survB, h1, h2]
      have hdrop :
          dropLabel ((labelFrom 0 rows).filter
              (fun p => decide (i ≤ p.1) || survB rows p.1)) i =
            (labelFrom 0 rows).filter (fun p => decide (i + 1 ≤ p.1) || survB rows p.1) := by
        unfold dropLabel
        rw [List.filter_filter]
        apply List.filter_congr
        intro p hp
        by_cases hpi : p.1 = i
        · simp [hpi, hsurv]
        · have hne : (p.1 != i) = true := by simp [hpi]
          cases hs : survB rows p.1
          · simp [hne, hs, decide_eq_decide]
            omega
          · simp [hne, hs]
      rw [hdrop]
      exact ih f (i + 1) (by omega) (by omega)
    · rw [if_neg htag]
      have hsurv : survB rows i = true := by
        rw [survB_eq_true]
        right
        simpa [tagAt] using htag
      have hstate : (labelFrom 0 rows).filter (fun p => decide (i ≤ p.1) || survB rows p.1) =
          (labelFrom 0 rows).filter (fun p => decide (i + 1 ≤ p.1) || survB rows p.1) := by
        apply List.filter_congr
        intro p hp
        by_cases hpi : p.1 = i
        · simp [hpi, hsurv]
        · cases hs : survB rows p.1
          · simp [hs, decide_eq_decide]
            omega
          · simp [hs]
      rw [hstate]
      exact ih f (i + 1) (by omega) (by omega)

theorem altLoopRun_eq_altFilter (rows : List Extremum) :
    altLoopRun rows = some (altFilter rows) := by
  by_cases h : rows = []
  · subst h; rfl
  · have hn : 1 ≤ rows.length := List.length_pos.mpr h
    unfold altLoopRun
    have h0 : labelFrom 0 rows =
        (labelFrom 0 rows).filter (fun p => decide (0 ≤ p.1) || survB rows p.1) := by
      symm
      rw [List.filter_eq_self]
      intro p hp
      simp
    rw [h0]
    exact altLoopGo_inv rows (rows.length - 1) rows.length 0 (by omega) (by omega)

/-! ## Alternation of the surviving rows -/

theorem mem_natsFrom : ∀ (n k m : Nat), m ∈ natsFrom k n ↔ k ≤ m ∧ m < k + n := by
  intro n
  induction n with
  | zero =>
    intro k m
    simp only [natsFrom, List.not_mem_nil, false_iff]
    omega
  | succ n ih =>
    intro k m
    simp only [natsFrom, List.mem_cons, ih]
    omega

theorem pairwise_lt_natsFrom : ∀ (n k : Nat), List.Pairwise (· < ·) (natsFrom k n) := by
  intro n
  induction n with
  | zero => intro k; simp [natsFrom]
  | succ n ih =>
    intro k
    simp only [natsFrom, List.pairwise_cons]
    refine ⟨?_, ih (k + 1)⟩
    intro m hm
    have := (mem_natsFrom n (k + 1) m).1 hm
    omega

theorem chain_filter_natsFrom (g : Nat → Bool) (R : Nat → Nat → Prop)
    (hR : ∀ i j, i < j → g i = true → g j = true →
      (∀ m, i < m → m < j → g m = false) → R i j) :
    ∀ (n k : Nat), List.Chain' R ((natsFrom k n).filter g) := by
  intro n
  induction n with
  | zero =>
    intro k
    simp only [natsFrom, List.filter_nil]
    exact List.chain'_nil
  | succ n ih =>
    intro k
    simp only [natsFrom]
    by_cases hk : g k = true
    · rw [List.filter_cons_of_pos hk]
      rcases hrest : (natsFrom (k + 1) n).filter g with _ | ⟨j, t⟩
      · exact List.chain'_singleton k
      · rw [List.chain'_cons]
        constructor
        · have hjmem : j ∈ (natsFrom (k + 1) n).filter g := by
            rw [hrest]
            exact List.mem_cons_self _ _
          have hj := List.mem_filter.1 hjmem
          have hjb := (mem_natsFrom n (k + 1) j).1 hj.1
          apply hR k j (by omega) hk hj.2
          intro m hm1 hm2
          cases hgmv : g m with
          | false => rfl
          | true =>
            exfalso
            have hmmem : m ∈ (natsFrom (k + 1) n).filter g := by
              apply List.mem_filter.2
              refine ⟨?_, hgmv⟩
              rw [mem_natsFrom]
              omega
            rw [hrest] at hmmem
            have hpair : List.Pairwise (· < ·) ((natsFrom (k + 1) n).filter g) :=
              (pairwise_lt_natsFrom n (k + 1)).filter g
            rw [hrest] at hpair
            rcases List.mem_cons.1 hmmem with rfl | hmt
            · omega
            · have := (List.pairwise_cons.1 hpair).1 m hmt
              omega
        · rw [← hrest]
          exact ih (k + 1)
    · rw [List.filter_cons_of_neg hk]
      exact ih (k + 1)

theorem labelFrom_filter_eq_map (g : Nat → Bool) :
    ∀ (l : List Extremum) (k : Nat),
      (labelFrom k l).filter (fun p => g p.1) =
        ((natsFrom k l.length).filter g).map (fun i => (i, l.getD (i - k) dE)) := by
  intro l
  induction l with
  | nil => intro k; simp [labelFrom, natsFrom]
  | cons a l ih =>
    intro k
    simp only [labelFrom, List.length_cons, natsFrom]
    by_cases hk : g k = true
    · rw [@List.filter_cons_of_pos _ (fun q : Nat × Extremum => g q.1) (k, a)
          (labelFrom (k + 1) l) hk,
        List.filter_cons_of_pos hk]
      simp only [List.map_cons, Nat.sub_self, List.getD_cons_zero]
      congr 1
      rw [ih (k + 1)]
      apply List.map_congr_left
      intro i hi
      have hib := (mem_natsFrom l.length (k + 1) i).1 (List.mem_filter.1 hi).1
      have e : i - k = (i - (k + 1)) + 1 := by omega
      rw [e, List.getD_cons_succ]
    · rw [@List.filter_cons_of_neg _ (fun q : Nat × Extremum => g q.1) (k, a)
          (labelFrom (k + 1) l) hk,
        List.filter_cons_of_neg hk]
      rw [ih (k + 1)]
      apply List.map_congr_left
      intro i hi
      have hib := (mem_natsFrom l.length (k + 1) i).1 (List.mem_filter.1 hi).1
      have e : i - k = (i - (k + 1)) + 1 := by omega
      rw [e, List.getD_cons_succ]

theorem getD_of_le {l : List Extremum} {n : Nat} (h : l.length ≤ n) : l.getD n dE = dE := by
  simp [List.getD_eq_getElem?_getD, List.getElem?_eq_none h]

theorem survB_eq_false {rows : List Extremum} {j : Nat} :
    survB rows j = false ↔ (j + 1 ≠ rows.length ∧ tagAt rows j = tagAt rows (j + 1)) := by
  simp [survB]

theorem survB_lt_length {rows : List Extremum} {j : Nat} (h : survB rows j = true) :
    j < rows.length := by
  rcases survB_eq_true.1 h with h1 | h2
  · omega
  · by_contra hj
    push_neg at hj
    have e1 : rows.getD j dE = dE := getD_of_le (by omega)
    have e2 : rows.getD (j + 1) dE = dE := getD_of_le (by omega)
    apply h2
    simp only [tagAt]
    rw [e1, e2]

theorem tagAt_eq_of_between (rows : List Extremum) (a : Nat) :
    ∀ b, a ≤ b → (∀ m, a ≤ m → m < b → tagAt rows m = tagAt rows (m + 1)) →
      tagAt rows a = tagAt rows b := by
  intro b hab
  induction b, hab using Nat.le_induction with
  | base => intro _; rfl
  | succ b hb ih =>
    intro hstep
    have h1 : tagAt rows a = tagAt rows b := ih (fun m hm1 hm2 => hstep m hm1 (by omega))
    rw [h1]
    exact hstep b hb (by omega)

theorem chain_altFilter (rows : List Extremum) :
    List.Chain' (fun p q : Nat × Extremum => p.2.tag ≠ q.2.tag) (altFilter rows) := by
  rw [altFilter, labelFrom_filter_eq_map (survB rows) rows 0]
  rw [List.chain'_map]
  apply chain_filter_natsFrom
  intro i j hij hgi hgj hbetween
  simp only [Nat.sub_zero]
  have hjlt : j < rows.length := survB_lt_length hgj
  rcases survB_eq_true.1 hgi with h1 | h2
  · omega
  · show tagAt rows i ≠ tagAt rows j
    have hchain : tagAt rows (i + 1) = tagAt rows j := by
      apply tagAt_eq_of_between rows (i + 1) j (by omega)
      intro m hm1 hm2
      exact (survB_eq_false.1 (hbetween m (by omega) (by omega))).2
    rw [← hchain]
    exact h2

/-! ## Structure of the rate table -/

theorem addDiffsAux_length : ∀ (s : List (Nat × Extremum)) (prev : Extremum),
    (addDiffsAux prev s).length = s.length := by
  intro s
  induction s with
  | nil => intro prev; rfl
  | cons p rest ih =>
    intro prev
    obtain ⟨l, e⟩ := p
    simp [addDiffsAux, ih e]

theorem addDiffsAux_label_mem : ∀ (s : List (Nat × Extremum)) (prev : Extremum) (r : RateRow),
    r ∈ addDiffsAux prev s → r.label ∈ s.map Prod.fst := by
  intro s
  induction s with
  | nil => intro prev r hr; simp [addDiffsAux] at hr
  | cons p rest ih =>
    intro prev r hr
    obtain ⟨l, e⟩ := p
    simp only [addDiffsAux, List.mem_cons] at hr
    rcases hr with rfl | hr
    · simp
    · exact List.mem_cons_of_mem _ (ih e r hr)

theorem addDiffs_label_mem : ∀ (s : List (Nat × Extremum)) (r : RateRow),
    r ∈ addDiffs s → r.label ∈ s.map Prod.fst := by
  intro s r
  cases s with
  | nil => intro hr; simp [addDiffs] at hr
  | cons p rest =>
    obtain ⟨l, e⟩ := p
    intro hr
    simp only [addDiffs, List.mem_cons] at hr
    rcases hr with rfl | hr
    · simp
    · exact List.mem_cons_of_mem _ (addDiffsAux_label_mem rest e r hr)

theorem altFilter_cons_of_surv (r0 : Extremum) (rs : List Extremum)
    (h : survB (r0 :: rs) 0 = true) :
    altFilter (r0 :: rs) =
      (0, r0) :: (labelFrom 1 rs).filter (fun p => survB (r0 :: rs) p.1) := by
  unfold altFilter
  simp only [labelFrom]
  rw [@List.filter_cons_of_pos _ (fun p : Nat × Extremum => survB (r0 :: rs) p.1) (0, r0)
    (labelFrom (0 + 1) rs) h]

theorem altFilter_cons_of_not_surv (r0 : Extremum) (rs : List Extremum)
    (h : ¬ survB (r0 :: rs) 0 = true) :
    altFilter (r0 :: rs) = (labelFrom 1 rs).filter (fun p => survB (r0 :: rs) p.1) := by
  unfold altFilter
  simp only [labelFrom]
  rw [@List.filter_cons_of_neg _ (fun p : Nat × Extremum => survB (r0 :: rs) p.1) (0, r0)
    (labelFrom (0 + 1) rs) h]

theorem ratePipeline_some_struct (rows : List Extremum) (out : List RateRow)
    (h : ratePipeline rows = some out) :
    ∃ r0 rs s2, rows = r0 :: rs ∧ altFilter rows = (0, r0) :: s2 ∧
      (∀ p ∈ s2, 1 ≤ p.1) ∧ out = (addDiffsAux r0 s2).map addRate := by
  unfold ratePipeline at h
  rw [altLoopRun_eq_altFilter rows] at h
  simp only [Option.some_bind] at h
  cases rows with
  | nil =>
    exfalso
    simp [altFilter, labelFrom, addDiffs, dropLabel0] at h
  | cons r0 rs =>
    by_cases h0 : survB (r0 :: rs) 0 = true
    · refine ⟨r0, rs, (labelFrom 1 rs).filter (fun p => survB (r0 :: rs) p.1), rfl,
        altFilter_cons_of_surv r0 rs h0, ?_, ?_⟩
      · intro p hp
        exact ((mem_labelFrom rs 1 p).1 (List.mem_filter.1 hp).1).1
      · rw [altFilter_cons_of_surv r0 rs h0] at h
        have hdiff : addDiffs ((0, r0) :: (labelFrom 1 rs).filter
            (fun p => survB (r0 :: rs) p.1)) =
            (⟨0, r0.time, r0.nh3, r0.tag, none, none, none⟩ : RateRow) ::
              addDiffsAux r0 ((labelFrom 1 rs).filter (fun p => survB (r0 :: rs) p.1)) := by
          simp [addDiffs]
        rw [hdiff] at h
        have hany : ((⟨0, r0.time, r0.nh3, r0.tag, none, none, none⟩ : RateRow) ::
            addDiffsAux r0 ((labelFrom 1 rs).filter (fun p => survB (r0 :: rs) p.1))).any
              (fun r => r.label == 0) = true := by
          simp
        unfold dropLabel0 at h
        rw [if_pos hany] at h
        have hhead : ((⟨0, r0.time, r0.nh3, r0.tag, none, none, none⟩ : RateRow) ::
            addDiffsAux r0 ((labelFrom 1 rs).filter (fun p => survB (r0 :: rs) p.1))).filter
              (fun r => r.label != 0) =
            addDiffsAux r0 ((labelFrom 1 rs).filter (fun p => survB (r0 :: rs) p.1)) := by
          rw [List.filter_cons_of_neg (by simp)]
          rw [List.filter_eq_self]
          intro r hr
          obtain ⟨p, hp, he⟩ := List.mem_map.1
            (addDiffsAux_label_mem ((labelFrom 1 rs).filter
              (fun q => survB (r0 :: rs) q.1)) r0 r hr)
          have h1 := ((mem_labelFrom rs 1 p).1 (List.mem_filter.1 hp).1).1
          simp only [bne_iff_ne]
          omega
        rw [hhead] at h
        simp only [Option.map_some'] at h
        exact (Option.some.inj h).symm
    · exfalso
      rw [altFilter_cons_of_not_surv r0 rs h0] at h
      have hany : (addDiffs ((labelFrom 1 rs).filter
          (fun p => survB (r0 :: rs) p.1))).any (fun r => r.label == 0) = false := by
        rw [List.any_eq_false]
        intro r hr
        obtain ⟨p, hp, he⟩ := List.mem_map.1
          (addDiffs_label_mem ((labelFrom 1 rs).filter
            (fun q => survB (r0 :: rs) q.1)) r hr)
        have h1 := ((mem_labelFrom rs 1 p).1 (List.mem_filter.1 hp).1).1
        simp only [beq_iff_eq]
        omega
      unfold dropLabel0 at h
      rw [if_neg (by simp [hany])] at h
      simp at h

theorem addDiffsAux_map_getD : ∀ (s2 : List (Nat × Extremum)) (pp : Nat × Extremum) (k : Nat),
    k < s2.length →
    ((addDiffsAux pp.2 s2).map addRate).getD k dR =
      rateRowOf ((pp :: s2).getD k dP) (s2.getD k dP) := by
  intro s2
  induction s2 with
  | nil => intro pp k hk; simp at hk
  | cons c t ih =>
    intro pp k hk
    obtain ⟨l, e⟩ := c
    cases k with
    | zero =>
      simp only [addDiffsAux, List.map_cons, List.getD_cons_zero]
      simp [addRate, rateRowOf]
    | succ k =>
      simp only [addDiffsAux, List.map_cons, List.getD_cons_succ]
      have hk2 : k < t.length := by
        have : t.length + 1 = ((l, e) :: t).length := by simp
        omega
      exact ih (l, e) k hk2

theorem addDiffsAux_map_isSome : ∀ (s2 : List (Nat × Extremum)) (prev : Extremum) (r : RateRow),
    r ∈ (addDiffsAux prev s2).map addRate → r.dNH3.isSome ∧ r.dTime.isSome := by
  intro s2
  induction s2 with
  | nil => intro prev r hr; simp [addDiffsAux] at hr
  | cons c t ih =>
    intro prev r hr
    obtain ⟨l, e⟩ := c
    simp only [addDiffsAux, List.map_cons, List.mem_cons] at hr
    rcases hr with rfl | hr
    · simp [addRate]
    · exact ih e r hr

/-! ## Membership in the detected peak sets -/

theorem isLocalPeak_lt_length {x : List ℚ} {i : Nat} (h : isLocalPeak x i = true) :
    i < x.length := by
  unfold isLocalPeak at h
  simp only [Bool.and_eq_true, decide_eq_true_eq, beq_iff_eq] at h
  have hr : i ≤ plateauR x i := Nat.le_add_right i _
  omega

theorem mem_find_peaks {x : List ℚ} {h p : ℚ} {i : Nat} :
    i ∈ find_peaks x h p ↔
      isLocalPeak x i = true ∧ h ≤ x.getD i 0 ∧ p ≤ prominence x i := by
  unfold find_peaks
  simp only [List.mem_filter, List.mem_range, decide_eq_true_eq]
  constructor
  · rintro ⟨⟨⟨hi, hpk⟩, hh⟩, hp⟩
    exact ⟨hpk, hh, hp⟩
  · rintro ⟨hpk, hh, hp⟩
    exact ⟨⟨⟨isLocalPeak_lt_length hpk, hpk⟩, hh⟩, hp⟩

theorem getD_map_neg (df : List Sample) : ∀ i : Nat,
    (df.map (fun s => -s.nh3)).getD i 0 = -((df.map (fun s => s.nh3)).getD i 0) := by
  induction df with
  | nil => intro i; simp
  | cons a l ih =>
    intro i
    cases i with
    | zero => simp
    | succ i => simpa using ih i

/-! ## Claim theorems -/

/-- C1: for every input sequence of tagged extrema, after the
alternation-enforcement pass no two adjacent surviving entries have the same
type tag: the surviving sequence strictly alternates between max and min. -/
theorem c1_alternation_invariant (rows : List Extremum) (s : List (Nat × Extremum))
    (h : altLoopRun rows = some s) :
    List.Chain' (fun p q : Nat × Extremum => p.2.tag ≠ q.2.tag) s := by
  have he := altLoopRun_eq_altFilter rows
  rw [h] at he
  rw [Option.some.inj he]
  exact chain_altFilter rows

/-- Witness for C1 at a concrete merged sequence max, min, min: the loop
deletes the middle row and the survivors' tags alternate. -/
theorem c1_witness :
    altLoopRun [⟨0, 1, Tag.max⟩, ⟨1, 0, Tag.min⟩, ⟨2, 3, Tag.min⟩] =
        some [(0, ⟨0, 1, Tag.max⟩), (2, ⟨2, 3, Tag.min⟩)] ∧
      List.Chain' (fun p q : Nat × Extremum => p.2.tag ≠ q.2.tag)
        [(0, ⟨0, 1, Tag.max⟩), (2, ⟨2, 3, Tag.min⟩)] :=
  ⟨by with_unfolding_all decide,
    c1_alternation_invariant [⟨0, 1, Tag.max⟩, ⟨1, 0, Tag.min⟩, ⟨2, 3, Tag.min⟩]
      [(0, ⟨0, 1, Tag.max⟩), (2, ⟨2, 3, Tag.min⟩)] (by with_unfolding_all decide)⟩

/-- C2 counterexample: on the merged sequence [max, max] the claimed
first-seen policy would keep the first row (label 0), but the loop compares
`extrema['type'][0] == extrema['type'][1]` and drops label 0, so the second
row is the survivor and label 0 is gone. -/
theorem c2_counterexample :
    altLoopRun [⟨0, 1, Tag.max⟩, ⟨1, 2, Tag.max⟩] = some [(1, ⟨1, 2, Tag.max⟩)] ∧
      lookupLabel [(1, ⟨1, 2, Tag.max⟩)] 0 = none :=
  ⟨by with_unfolding_all decide, by with_unfolding_all decide⟩

/-- C2 (amended): the alternation filter removes consecutive same-tag
duplicates with a last-seen policy: the row at original position `i` survives
exactly when it is the final row or its tag differs from the tag of the next
original row; within each run of adjacent same-tag entries the last one
survives and the earlier ones are deleted. -/
theorem c2_last_seen (rows : List Extremum) (s : List (Nat × Extremum)) (i : Nat)
    (h : altLoopRun rows = some s) :
    ((i, rows.getD i dE) ∈ s) ↔
      (i + 1 = rows.length ∨ (i + 1 < rows.length ∧ tagAt rows i ≠ tagAt rows (i + 1))) := by
  have he := altLoopRun_eq_altFilter rows
  rw [h] at he
  rw [Option.some.inj he]
  unfold altFilter
  rw [List.mem_filter]
  constructor
  · rintro ⟨hmem, hs⟩
    have hb := (mem_labelFrom rows 0 (i, rows.getD i dE)).1 hmem
    rcases survB_eq_true.1 hs with h1 | h2
    · left; exact h1
    · by_cases he2 : i + 1 = rows.length
      · left; exact he2
      · right
        refine ⟨?_, h2⟩
        have : i - 0 < rows.length := hb.2.1
        omega
  · intro hc
    constructor
    · rw [mem_labelFrom]
      refine ⟨Nat.zero_le i, ?_, by simp⟩
      simp only [Nat.sub_zero]
      rcases hc with h1 | ⟨h2, _⟩ <;> omega
    · show survB rows i = true
      rw [survB_eq_true]
      tauto

/-- Witness for C2's amended claim: in the run [max, max] position 1 (the
last of the run) is a survivor. -/
theorem c2_witness :
    (altLoopRun [⟨0, 1, Tag.max⟩, ⟨1, 2, Tag.max⟩] = some [(1, ⟨1, 2, Tag.max⟩)]) ∧
      (((1, ([⟨0, 1, Tag.max⟩, ⟨1, 2, Tag.max⟩] : List Extremum).getD 1 dE) ∈
          [(1, (⟨1, 2, Tag.max⟩ : Extremum))]) ↔
        (1 + 1 = ([⟨0, 1, Tag.max⟩, ⟨1, 2, Tag.max⟩] : List Extremum).length ∨
          (1 + 1 < ([⟨0, 1, Tag.max⟩, ⟨1, 2, Tag.max⟩] : List Extremum).length ∧
            tagAt [⟨0, 1, Tag.max⟩, ⟨1, 2, Tag.max⟩] 1 ≠
              tagAt [⟨0, 1, Tag.max⟩, ⟨1, 2, Tag.max⟩] 2))) :=
  ⟨by with_unfolding_all decide,
    c2_last_seen [⟨0, 1, Tag.max⟩, ⟨1, 2, Tag.max⟩] [(1, ⟨1, 2, Tag.max⟩)] 1
      (by with_unfolding_all decide)⟩

/-- C3: every row of the rate table pairs a retained extremum with the
previous surviving one: Delta_NH3 is the value difference, Delta_Time the
timestamp difference, and NH3/Hour is exactly
Delta_NH3 / (Delta_Time in seconds / 3600). -/
theorem c3_rate_formula (rows : List Extremum) (out : List RateRow) (k : Nat)
    (h : ratePipeline rows = some out) (hk : k < out.length) :
    out.getD k dR =
      rateRowOf ((altFilter rows).getD k dP) ((altFilter rows).getD (k + 1) dP) := by
  obtain ⟨r0, rs, s2, hrows, hfil, hge, hout⟩ := ratePipeline_some_struct rows out h
  rw [hout, hfil]
  simp only [List.getD_cons_succ]
  have hk2 : k < s2.length := by
    rw [hout, List.length_map, addDiffsAux_length] at hk
    exact hk
  exact addDiffsAux_map_getD s2 (0, r0) k hk2

/-- Witness for C3: a max at (t=0, 5) followed by a min at (t=360, 1) gives
Delta_NH3 = -4, Delta_Time = 360 s and rate -4 / (360/3600) = -40 per hour. -/
theorem c3_witness :
    (ratePipeline [⟨0, 5, Tag.max⟩, ⟨360, 1, Tag.min⟩] =
        some [⟨1, 360, 1, Tag.min, some (-4), some 360, some (-40)⟩]) ∧
      (0 < ([⟨1, 360, 1, Tag.min, some (-4), some 360, some (-40)⟩] : List RateRow).length) ∧
      ([⟨1, 360, 1, Tag.min, some (-4), some 360, some (-40)⟩] : List RateRow).getD 0 dR =
        rateRowOf ((altFilter [⟨0, 5, Tag.max⟩, ⟨360, 1, Tag.min⟩]).getD 0 dP)
          ((altFilter [⟨0, 5, Tag.max⟩, ⟨360, 1, Tag.min⟩]).getD 1 dP) :=
  ⟨by with_unfolding_all decide, by with_unfolding_all decide,
    c3_rate_formula [⟨0, 5, Tag.max⟩, ⟨360, 1, Tag.min⟩]
      [⟨1, 360, 1, Tag.min, some (-4), some 360, some (-40)⟩] 0
      (by with_unfolding_all decide) (by with_unfolding_all decide)⟩

/-- C4: an index is reported as a local maximum iff it is a local peak whose
value is at least the upper threshold and whose prominence is at least 0.3;
an index is reported as a local minimum iff it is a local peak of the negated
series whose value is at most the lower threshold and whose prominence in the
negated series is at least 0.3. -/
theorem c4_detection_contract (df : List Sample) (hi lo : ℚ) (i : Nat) :
    (i ∈ maximaIdx df hi ↔
        isLocalPeak (df.map (fun s => s.nh3)) i = true ∧
          hi ≤ (df.map (fun s => s.nh3)).getD i 0 ∧
          3 / 10 ≤ prominence (df.map (fun s => s.nh3)) i) ∧
      (i ∈ minimaIdx df lo ↔
        isLocalPeak (df.map (fun s => -s.nh3)) i = true ∧
          (df.map (fun s => s.nh3)).getD i 0 ≤ lo ∧
          3 / 10 ≤ prominence (df.map (fun s => -s.nh3)) i) := by
  constructor
  · exact mem_find_peaks
  · rw [minimaIdx, mem_find_peaks, getD_map_neg df i]
    constructor
    · rintro ⟨h1, h2, h3⟩
      exact ⟨h1, by linarith, h3⟩
    · rintro ⟨h1, h2, h3⟩
      exact ⟨h1, by linarith, h3⟩

/-- C5: when the first two merged rows share a tag, the loop drops label 0,
so the later unconditional `extrema.drop(0)` addresses a missing label and
the rate step fails (`none`) instead of producing a table. -/
theorem c5_first_pair_failure (rows : List Extremum)
    (h2 : 2 ≤ rows.length) (heq : tagAt rows 0 = tagAt rows 1) :
    lookupLabel (altFilter rows) 0 = none ∧ ratePipeline rows = none := by
  have hs0 : survB rows 0 = false := survB_eq_false.2 ⟨by omega, heq⟩
  constructor
  · unfold lookupLabel
    have hfind : (altFilter rows).find? (fun p => p.1 == 0) = none := by
      rw [List.find?_eq_none]
      intro p hp hbeq
      have hpe : p.1 = 0 := by simpa using hbeq
      have hsp : survB rows p.1 = true := (List.mem_filter.1 hp).2
      rw [hpe, hs0] at hsp
      cases hsp
    rw [hfind]
    rfl
  · unfold ratePipeline
    rw [altLoopRun_eq_altFilter]
    simp only [Option.some_bind]
    have hany : (addDiffs (altFilter rows)).any (fun r => r.label == 0) = false := by
      rw [List.any_eq_false]
      intro r hr hbeq
      obtain ⟨p, hp, he⟩ := List.mem_map.1 (addDiffs_label_mem (altFilter rows) r hr)
      have hsp : survB rows p.1 = true := (List.mem_filter.1 hp).2
      have h0 : r.label = 0 := by simpa using hbeq
      have hpe : p.1 = 0 := by omega
      rw [hpe, hs0] at hsp
      cases hsp
    unfold dropLabel0
    rw [if_neg (by simp [hany])]
    rfl

/-- Witness for C5: two maxima in a row make the whole rate step fail. -/
theorem c5_witness :
    (2 ≤ ([⟨0, 1, Tag.max⟩, ⟨1, 2, Tag.max⟩] : List Extremum).length) ∧
      (tagAt [⟨0, 1, Tag.max⟩, ⟨1, 2, Tag.max⟩] 0 =
        tagAt [⟨0, 1, Tag.max⟩, ⟨1, 2, Tag.max⟩] 1) ∧
      (lookupLabel (altFilter [⟨0, 1, Tag.max⟩, ⟨1, 2, Tag.max⟩]) 0 = none ∧
        ratePipeline [⟨0, 1, Tag.max⟩, ⟨1, 2, Tag.max⟩] = none) :=
  ⟨by with_unfolding_all decide, by with_unfolding_all decide,
    c5_first_pair_failure [⟨0, 1, Tag.max⟩, ⟨1, 2, Tag.max⟩]
      (by with_unfolding_all decide) (by with_unfolding_all decide)⟩

/-- C6: on the series (0,1), (1,5), (1,1), (2,6) with thresholds 4 and 2 the
two surviving extrema carry the same timestamp, so Delta_Time is 0 and the
rate division is performed with a zero denominator, unguarded (in this
rational model `4 / (0/3600)` is the junk value 0; the source computes the
same unguarded expression over floats). -/
theorem c6_zero_denominator :
    (fullPipeline [⟨0, 1⟩, ⟨1, 5⟩, ⟨1, 1⟩, ⟨2, 6⟩] 4 2 =
        some [⟨1, 1, 5, Tag.max, some 4, some 0, some ((4 : ℚ) / (0 / 3600))⟩]) ∧
      (⟨1, 1, 5, Tag.max, some 4, some 0, some ((4 : ℚ) / (0 / 3600))⟩ : RateRow).dTime =
        some 0 :=
  ⟨by with_unfolding_all decide, by with_unfolding_all decide⟩

/-- C7: on the series [1,5,1,6,1] with thresholds 4 and 2, detection reports
exactly the maxima of values 5 and 6 and one minimum of value 1 between them,
the merged frame already alternates max, min, max, and the alternation pass
deletes nothing. -/
theorem c7_example_series :
    detectMaxima [⟨0, 1⟩, ⟨1, 5⟩, ⟨2, 1⟩, ⟨3, 6⟩, ⟨4, 1⟩] 4 =
        [⟨1, 5, Tag.max⟩, ⟨3, 6, Tag.max⟩] ∧
      detectMinima [⟨0, 1⟩, ⟨1, 5⟩, ⟨2, 1⟩, ⟨3, 6⟩, ⟨4, 1⟩] 2 = [⟨2, 1, Tag.min⟩] ∧
      mergeOrdered [⟨1, 5, Tag.max⟩, ⟨3, 6, Tag.max⟩] [⟨2, 1, Tag.min⟩] =
        [⟨1, 5, Tag.max⟩, ⟨2, 1, Tag.min⟩, ⟨3, 6, Tag.max⟩] ∧
      altLoopRun [⟨1, 5, Tag.max⟩, ⟨2, 1, Tag.min⟩, ⟨3, 6, Tag.max⟩] =
        some (labelFrom 0 [⟨1, 5, Tag.max⟩, ⟨2, 1, Tag.min⟩, ⟨3, 6, Tag.max⟩]) := by
  refine ⟨?_, ?_, ?_, ?_⟩ <;> with_unfolding_all decide

/-- C8: a successful rate step drops exactly one row (the first survivor,
label 0) and every remaining row carries defined Delta_NH3 and Delta_Time
entries. -/
theorem c8_first_row_dropped (rows : List Extremum) (out : List RateRow)
    (h : ratePipeline rows = some out) :
    out.length + 1 = (altFilter rows).length ∧
      ∀ r ∈ out, r.dNH3.isSome ∧ r.dTime.isSome := by
  obtain ⟨r0, rs, s2, hrows, hfil, hge, hout⟩ := ratePipeline_some_struct rows out h
  constructor
  · rw [hout, hfil, List.length_map, addDiffsAux_length]
    simp
  · intro r hr
    rw [hout] at hr
    exact addDiffsAux_map_isSome s2 r0 r hr

/-- Witness for C8: a min then a max survive; the output has one row
(= 2 survivors − 1) and its deltas are defined. -/
theorem c8_witness :
    (ratePipeline [⟨0, 2, Tag.min⟩, ⟨360, 6, Tag.max⟩] =
        some [⟨1, 360, 6, Tag.max, some 4, some 360, some 40⟩]) ∧
      (([⟨1, 360, 6, Tag.max, some 4, some 360, some 40⟩] : List RateRow).length + 1 =
          (altFilter [⟨0, 2, Tag.min⟩, ⟨360, 6, Tag.max⟩]).length ∧
        ∀ r ∈ ([⟨1, 360, 6, Tag.max, some 4, some 360, some 40⟩] : List RateRow),
          r.dNH3.isSome ∧ r.dTime.isSome) :=
  ⟨by with_unfolding_all decide,
    c8_first_row_dropped [⟨0, 2, Tag.min⟩, ⟨360, 6, Tag.max⟩]
      [⟨1, 360, 6, Tag.max, some 4, some 360, some 40⟩] (by with_unfolding_all decide)⟩

/-- C9: with the dataframe and the two cutoffs fixed, the
detection-through-rate pipeline is deterministic (two states agreeing on
those inputs produce the same extrema table, whatever stale frames they
hold) and idempotent (running the two cells again does not change the
state). -/
theorem c9_deterministic_idempotent (s t : NBState)
    (h1 : s.df = t.df) (h2 : s.maxCutoff = t.maxCutoff) (h3 : s.minCutoff = t.minCutoff) :
    (runPipeline s).extrema = (runPipeline t).extrema ∧
      runPipeline (runPipeline s) = runPipeline s := by
  constructor
  · simp [runPipeline, runRate, runDetect, h1, h2, h3]
  · rfl

/-- Witness for C9 at two concrete states sharing df and cutoffs but holding
different stale maxima/minima/extrema frames. -/
theorem c9_witness :
    ((⟨[⟨0, 1⟩], 4, 2, [], [], none⟩ : NBState).df =
        (⟨[⟨0, 1⟩], 4, 2, [⟨9, 9, Tag.max⟩], [⟨8, 8, Tag.min⟩], some []⟩ : NBState).df) ∧
      ((⟨[⟨0, 1⟩], 4, 2, [], [], none⟩ : NBState).maxCutoff =
        (⟨[⟨0, 1⟩], 4, 2, [⟨9, 9, Tag.max⟩], [⟨8, 8, Tag.min⟩], some []⟩ : NBState).maxCutoff) ∧
      ((⟨[⟨0, 1⟩], 4, 2, [], [], none⟩ : NBState).minCutoff =
        (⟨[⟨0, 1⟩], 4, 2, [⟨9, 9, Tag.max⟩], [⟨8, 8, Tag.min⟩], some []⟩ : NBState).minCutoff) ∧
      ((runPipeline ⟨[⟨0, 1⟩], 4, 2, [], [], none⟩).extrema =
          (runPipeline ⟨[⟨0, 1⟩], 4, 2, [⟨9, 9, Tag.max⟩], [⟨8, 8, Tag.min⟩], some []⟩).extrema ∧
        runPipeline (runPipeline ⟨[⟨0, 1⟩], 4, 2, [], [], none⟩) =
          runPipeline ⟨[⟨0, 1⟩], 4, 2, [], [], none⟩) :=
  ⟨rfl, rfl, rfl,
    c9_deterministic_idempotent ⟨[⟨0, 1⟩], 4, 2, [], [], none⟩
      ⟨[⟨0, 1⟩], 4, 2, [⟨9, 9, Tag.max⟩], [⟨8, 8, Tag.min⟩], some []⟩ rfl rfl rfl⟩

/-- C10: the in-place mutating alternation loop refines the pure rebuild:
it never hits a missing label, and its result keeps exactly the rows whose
original position is last or whose tag differs from the next original row's
tag. -/
theorem c10_loop_refines_filter (rows : List Extremum) :
    altLoopRun rows = some (altFilter rows) :=
  altLoopRun_eq_altFilter rows

end NH3
